import Mathlib

/-
Verification of the storage driver in `src/main.go` (a small JSON file
database).  The filesystem is shallowly embedded as an association list
from paths (lists of path components) to nodes (regular file with byte
content, or directory).  Each driver method is translated from the Go
source; besides the resulting state each method also records the trace
of filesystem operations it performed, so that protocol-shaped claims
(write-to-temp-then-rename, no staging in Update, no filesystem contact
on validation failure) can be stated.
-/

set_option autoImplicit false

namespace GoJsonDb

/-- A filesystem path, as its list of components.  Collection and
resource names supplied by callers are opaque single components, which
matches the way the Go code passes them to `filepath.Join`. -/
abbrev Path := List String

/-- A filesystem node: a regular file with its byte content, or a
directory. -/
inductive FNode where
  | file (content : List Nat)
  | dir
deriving DecidableEq, Repr

/-- Filesystem state: an association list from paths to nodes.  The
first binding for a path wins. -/
abbrev Fs := List (Path × FNode)

/-- Look up the node at a path. -/
def fsLookup : Fs → Path → Option FNode
  | [], _ => none
  | e :: rest, p => if e.1 = p then some e.2 else fsLookup rest p

/-- Remove any binding for a path. -/
def fsErase : Fs → Path → Fs
  | [], _ => []
  | e :: rest, p => if e.1 = p then fsErase rest p else e :: fsErase rest p

/-- Set the node at a path, replacing any previous binding. -/
def fsSet (fs : Fs) (p : Path) (n : FNode) : Fs :=
  (p, n) :: fsErase fs p

/-- Append a string to the last component of a path: the embedding of
Go string concatenation `path + ext` on a rendered path. -/
def addExt : Path → String → Path
  | [], ext => [ext]
  | [c], ext => [c ++ ext]
  | c :: rest, ext => c :: addExt rest ext

/-- `path + ".json"` from the Go source. -/
def addJson (p : Path) : Path := addExt p (".json")

/-- `filepath.Join` on name arguments: empty names contribute no
component (names are opaque components, so no further cleaning
applies). -/
def joinNames : List String → Path
  | [] => []
  | s :: rest => if s = "" then joinNames rest else s :: joinNames rest

/-- `filepath.Join(p, parts...)` with a path first argument. -/
def pathJoin (p : Path) (parts : List String) : Path :=
  p ++ joinNames parts

/-- The driver's error values, following the spec's taxonomy for the
errors the Go code returns (`fmt.Errorf` validation errors, `os`
errors, `encoding/json` errors). -/
inductive DbError where
  | invalidArgument (msg : String)
  | notFound (p : Path)
  | ioError
  | serializationError
  | deserializationError
deriving DecidableEq, Repr

/-- The paths probed by `stat` (`os.Stat(path)`, and on non-existence
`os.Stat(path + ".json")`). -/
def statProbes (fs : Fs) (p : Path) : List Path :=
  if (fsLookup fs p).isSome then [p] else [p, addJson p]

/-- The `stat` helper from the source: check `p`; only if it is absent,
check `p + ".json"`; return whichever exists, or the not-found error of
the second check. -/
def stat (fs : Fs) (p : Path) : Except DbError FNode :=
  match fsLookup fs p with
  | some fi => .ok fi
  | none =>
    match fsLookup fs (addJson p) with
    | some fi => .ok fi
    | none => .error (.notFound (addJson p))

/-- The nonempty prefixes of a path, shortest first: the directories
`os.MkdirAll` ensures. -/
def nePrefixes : Path → List Path
  | [] => []
  | c :: rest => [c] :: (nePrefixes rest).map (c :: ·)

/-- One step of `os.MkdirAll` per ancestor: an existing directory is
kept, an existing regular file is an error, a missing directory is
created. -/
def mkdirSteps : Fs → List Path → Except DbError Unit × Fs
  | fs, [] => (.ok (), fs)
  | fs, q :: qs =>
    match fsLookup fs q with
    | some (.file _) => (.error .ioError, fs)
    | some .dir => mkdirSteps fs qs
    | none => mkdirSteps (fsSet fs q .dir) qs

/-- `os.MkdirAll(p, 0755)`: create `p` and all missing parents; fail if
a regular file stands anywhere on the chain. -/
def mkdirAll (fs : Fs) (p : Path) : Except DbError Unit × Fs :=
  mkdirSteps fs (nePrefixes p)

/-- `ioutil.WriteFile(p, b, 0644)`: create or truncate the regular file
at `p`; fails when the parent directory is missing or `p` is an
existing directory. -/
def writeFileFs (fs : Fs) (p : Path) (b : List Nat) : Except DbError Fs :=
  if p = [] then .error .ioError
  else if p.dropLast = [] ∨ fsLookup fs p.dropLast = some .dir then
    if fsLookup fs p = some .dir then .error .ioError
    else .ok (fsSet fs p (.file b))
  else .error .ioError

/-- `os.Rename(src, dst)`: move the node at `src` onto `dst`, replacing
any previous regular file at `dst`; fails when `src` does not exist and
— for the regular files the driver renames — when `dst` is an existing
directory (EISDIR). -/
def renameFs (fs : Fs) (src dst : Path) : Except DbError Fs :=
  match fsLookup fs src with
  | none => .error .ioError
  | some n =>
    if fsLookup fs dst = some .dir then .error .ioError
    else .ok (fsSet (fsErase fs src) dst n)

/-- `os.RemoveAll(p)`: remove the node at `p` and everything below it;
succeeds even when nothing exists there. -/
def removeAllFs : Fs → Path → Fs
  | [], _ => []
  | e :: rest, p => if p <+: e.1 then removeAllFs rest p else e :: removeAllFs rest p

/-- `ioutil.ReadFile(p)`: the content of the regular file at `p`. -/
def readFileFs (fs : Fs) (p : Path) : Option (List Nat) :=
  match fsLookup fs p with
  | some (.file b) => some b
  | _ => none

/-- Names of the immediate children of `p` present in the filesystem. -/
def childNames (fs : Fs) (p : Path) : List String :=
  (fs.filterMap (fun e =>
    match e.1.reverse with
    | [] => none
    | nm :: restRev => if restRev.reverse = p then some nm else none)).dedup

/-- Lexicographic strict order on character lists by code point. -/
def charsLt : List Char → List Char → Bool
  | [], [] => false
  | [], _ :: _ => true
  | _ :: _, [] => false
  | a :: as, b :: bs =>
    if a.toNat < b.toNat then true
    else if b.toNat < a.toNat then false
    else charsLt as bs

/-- Byte-wise order used to mirror `ioutil.ReadDir`'s sorting of
directory entries by name. -/
def strLe (a b : String) : Bool := ! charsLt b.data a.data

/-- Insert a name into a sorted list of names. -/
def insSorted (nm : String) : List String → List String
  | [] => [nm]
  | x :: xs => if strLe nm x then nm :: x :: xs else x :: insSorted nm xs

/-- Sort names as `ioutil.ReadDir` does. -/
def sortNames (l : List String) : List String :=
  l.foldr insSorted []

/-- `ioutil.ReadDir(p)`: the entry names of the directory at `p`,
sorted by filename; fails when `p` is not a directory. -/
def readDirFs (fs : Fs) (p : Path) : Option (List String) :=
  match fsLookup fs p with
  | some .dir => some (sortNames (childNames fs p))
  | _ => none

/-- The serialization capability the driver consumes: `encoding/json`'s
`MarshalIndent(v, "", "\t")` (tab-indented, without the trailing
newline the driver appends itself) and `Unmarshal`.  Document values
are abstracted behind this capability, as the spec directs for a typed
embedding of Go's untyped `interface\x7b\x7d` documents. -/
structure Codec (V : Type) where
  marshal : V → Option (List Nat)
  unmarshal : List Nat → Option V

/-- The `Driver` struct: its root directory `dir` and the per-collection
mutex registry `mutexes`.  A mutex object is identified by its creation
index in the registry, modelling Go pointer identity; the list holds the
registry's keys in creation order. -/
structure Driver where
  dir : Path
  mutexes : List String
deriving DecidableEq, Repr

/-- The index of a collection's mutex in the registry, when present:
the embedding of `m, ok := d.mutexes[collection]`. -/
def mutexIdx : List String → String → Option Nat
  | [], _ => none
  | x :: xs, collection =>
    if x = collection then some 0 else (mutexIdx xs collection).map (· + 1)

/-- `getOrCreateMutex`: return the collection's mutex (its registry
index) and the updated registry, creating the mutex on first use. -/
def getOrCreateMutex (mutexes : List String) (collection : String) :
    Nat × List String :=
  match mutexIdx mutexes collection with
  | some i => (i, mutexes)
  | none => (mutexes.length, mutexes ++ [collection])

/-- One recorded filesystem operation, for stating protocol claims. -/
inductive FsOp where
  | statOp (p : Path)
  | mkdirOp (p : Path)
  | writeOp (p : Path) (b : List Nat)
  | renameOp (src dst : Path)
  | readOp (p : Path)
  | readDirOp (p : Path)
  | removeOp (p : Path)
deriving DecidableEq, Repr

/-- Outcome of one driver method: its returned value or error, the
filesystem afterwards, the mutex registry afterwards, the filesystem
operations performed in order, and the mutexes acquired (collection
name with the mutex's registry index). -/
structure OpOut (α : Type) where
  res : Except DbError α
  fs : Fs
  mutexes : List String
  fsTrace : List FsOp
  acquired : List (String × Nat)

/-- `Driver.Write` from the source: validate arguments, take the
collection mutex, ensure the collection directory, serialize with a
trailing newline, write the bytes to `<resource>.json.tmp`, and rename
the temporary file onto `<resource>.json`. -/
def Driver.Write {V : Type} (C : Codec V) (d : Driver) (fs0 : Fs)
    (collection resource : String) (v : V) : OpOut Unit :=
  if collection = "" then
    ⟨.error (.invalidArgument ("Missing collection")), fs0, d.mutexes, [], []⟩
  else if resource = "" then
    ⟨.error (.invalidArgument ("Missing resource")), fs0, d.mutexes, [], []⟩
  else
    let lk := getOrCreateMutex d.mutexes collection
    let dir := pathJoin d.dir [collection]
    let fnlPath := pathJoin dir [resource ++ (".json")]
    let tmpPath := addExt fnlPath (".tmp")
    match mkdirAll fs0 dir with
    | (.error e, fs1) => ⟨.error e, fs1, lk.2, [.mkdirOp dir], [(collection, lk.1)]⟩
    | (.ok _, fs1) =>
      match C.marshal v with
      | none =>
        ⟨.error .serializationError, fs1, lk.2, [.mkdirOp dir], [(collection, lk.1)]⟩
      | some b =>
        match writeFileFs fs1 tmpPath (b ++ [10]) with
        | .error e =>
          ⟨.error e, fs1, lk.2, [.mkdirOp dir, .writeOp tmpPath (b ++ [10])],
            [(collection, lk.1)]⟩
        | .ok fs2 =>
          match renameFs fs2 tmpPath fnlPath with
          | .error e =>
            ⟨.error e, fs2, lk.2,
              [.mkdirOp dir, .writeOp tmpPath (b ++ [10]), .renameOp tmpPath fnlPath],
              [(collection, lk.1)]⟩
          | .ok fs3 =>
            ⟨.ok (), fs3, lk.2,
              [.mkdirOp dir, .writeOp tmpPath (b ++ [10]), .renameOp tmpPath fnlPath],
              [(collection, lk.1)]⟩

/-- `Driver.Read` from the source: validate arguments, `stat` the bare
record path, read `record + ".json"`, and deserialize. -/
def Driver.Read {V : Type} (C : Codec V) (d : Driver) (fs0 : Fs)
    (collection resource : String) : OpOut V :=
  if collection = "" then
    ⟨.error (.invalidArgument ("Missing collection")), fs0, d.mutexes, [], []⟩
  else if resource = "" then
    ⟨.error (.invalidArgument ("Missing resource")), fs0, d.mutexes, [], []⟩
  else
    let record := pathJoin d.dir [collection, resource]
    let probes := (statProbes fs0 record).map FsOp.statOp
    match stat fs0 record with
    | .error e => ⟨.error e, fs0, d.mutexes, probes, []⟩
    | .ok _ =>
      match readFileFs fs0 (addJson record) with
      | none =>
        ⟨.error .ioError, fs0, d.mutexes, probes ++ [.readOp (addJson record)], []⟩
      | some b =>
        match C.unmarshal b with
        | none =>
          ⟨.error .deserializationError, fs0, d.mutexes,
            probes ++ [.readOp (addJson record)], []⟩
        | some v =>
          ⟨.ok v, fs0, d.mutexes, probes ++ [.readOp (addJson record)], []⟩

/-- The read loop of `Driver.ReadAll`: read each listed entry fully,
aborting on the first failure. -/
def readAllLoop (fs : Fs) (dir : Path) : List String → Except DbError (List (List Nat))
  | [] => .ok []
  | f :: rest =>
    match readFileFs fs (pathJoin dir [f]) with
    | none => .error .ioError
    | some b =>
      match readAllLoop fs dir rest with
      | .error e => .error e
      | .ok recs => .ok (b :: recs)

/-- `Driver.ReadAll` from the source: validate the collection, `stat`
the collection directory, enumerate it with the enumeration error
discarded (`files, _ := ioutil.ReadDir(dir)`), and read every listed
entry. -/
def Driver.ReadAll (d : Driver) (fs0 : Fs) (collection : String) :
    OpOut (List (List Nat)) :=
  if collection = "" then
    ⟨.error (.invalidArgument ("Missing collection")), fs0, d.mutexes, [], []⟩
  else
    let dir := pathJoin d.dir [collection]
    let probes := (statProbes fs0 dir).map FsOp.statOp
    match stat fs0 dir with
    | .error e => ⟨.error e, fs0, d.mutexes, probes, []⟩
    | .ok _ =>
      let files := (readDirFs fs0 dir).getD []
      match readAllLoop fs0 dir files with
      | .error e =>
        ⟨.error e, fs0, d.mutexes, probes ++ [.readDirOp dir], []⟩
      | .ok recs =>
        ⟨.ok recs, fs0, d.mutexes, probes ++ [.readDirOp dir], []⟩

/-- `Driver.Update` from the source: validate arguments, take the
collection mutex, `stat` the `<resource>.json` path, serialize with a
trailing newline, and write the bytes directly to that final path. -/
def Driver.Update {V : Type} (C : Codec V) (d : Driver) (fs0 : Fs)
    (collection resource : String) (v : V) : OpOut Unit :=
  if collection = "" then
    ⟨.error (.invalidArgument ("Missing collection")), fs0, d.mutexes, [], []⟩
  else if resource = "" then
    ⟨.error (.invalidArgument ("Missing resource")), fs0, d.mutexes, [], []⟩
  else
    let lk := getOrCreateMutex d.mutexes collection
    let dir := pathJoin d.dir [collection, resource ++ (".json")]
    let probes := (statProbes fs0 dir).map FsOp.statOp
    match stat fs0 dir with
    | .error e => ⟨.error e, fs0, lk.2, probes, [(collection, lk.1)]⟩
    | .ok _ =>
      match C.marshal v with
      | none => ⟨.error .serializationError, fs0, lk.2, probes, [(collection, lk.1)]⟩
      | some b =>
        match writeFileFs fs0 dir (b ++ [10]) with
        | .error e =>
          ⟨.error e, fs0, lk.2, probes ++ [.writeOp dir (b ++ [10])],
            [(collection, lk.1)]⟩
        | .ok fs1 =>
          ⟨.ok (), fs1, lk.2, probes ++ [.writeOp dir (b ++ [10])],
            [(collection, lk.1)]⟩

/-- `Driver.Delete` from the source: no argument validation; join the
collection and resource, take the collection mutex, `stat` the joined
path, and dispatch — a directory is removed recursively, a regular file
leads to `RemoveAll(dir + ".json")`, and otherwise the not-found error
names the joined relative path. -/
def Driver.Delete (d : Driver) (fs0 : Fs) (collection resource : String) :
    OpOut Unit :=
  let path := joinNames [collection, resource]
  let lk := getOrCreateMutex d.mutexes collection
  let dir := d.dir ++ path
  let probes := (statProbes fs0 dir).map FsOp.statOp
  match stat fs0 dir with
  | .error _ => ⟨.error (.notFound path), fs0, lk.2, probes, [(collection, lk.1)]⟩
  | .ok .dir =>
    ⟨.ok (), removeAllFs fs0 dir, lk.2, probes ++ [.removeOp dir],
      [(collection, lk.1)]⟩
  | .ok (.file _) =>
    ⟨.ok (), removeAllFs fs0 (addExt dir (".json")), lk.2,
      probes ++ [.removeOp (addExt dir (".json"))], [(collection, lk.1)]⟩

/-- One driver invocation, for stating whole-run invariants. -/
inductive DbOp (V : Type) where
  | writeCall (collection resource : String) (v : V)
  | readCall (collection resource : String)
  | readAllCall (collection : String)
  | updateCall (collection resource : String) (v : V)
  | deleteCall (collection resource : String)

/-- Execute one driver invocation, threading the mutex registry and the
filesystem. -/
def stepOp {V : Type} (C : Codec V) (d : Driver) (fs : Fs) :
    DbOp V → Driver × Fs
  | .writeCall c r v =>
    let o := Driver.Write C d fs c r v; (⟨d.dir, o.mutexes⟩, o.fs)
  | .readCall c r =>
    let o := Driver.Read C d fs c r; (⟨d.dir, o.mutexes⟩, o.fs)
  | .readAllCall c =>
    let o := Driver.ReadAll d fs c; (⟨d.dir, o.mutexes⟩, o.fs)
  | .updateCall c r v =>
    let o := Driver.Update C d fs c r v; (⟨d.dir, o.mutexes⟩, o.fs)
  | .deleteCall c r =>
    let o := Driver.Delete d fs c r; (⟨d.dir, o.mutexes⟩, o.fs)

/-- Execute a sequence of driver invocations. -/
def runOps {V : Type} (C : Codec V) (d : Driver) (fs : Fs) :
    List (DbOp V) → Driver × Fs
  | [] => (d, fs)
  | op :: ops =>
    let s := stepOp C d fs op
    runOps C s.1 s.2 ops

/-! Concrete fixtures used to exercise the theorems on explicit inputs. -/

/-- A codec on raw byte lists: serialization is the identity and
deserialization drops the trailing newline the driver appends. -/
def bytesCodec : Codec (List Nat) := ⟨fun v => some v, fun b => some b.dropLast⟩

/-- A codec whose values can never be serialized. -/
def noneCodec : Codec (List Nat) := ⟨fun _ => none, fun _ => none⟩

/-- A driver rooted at `db` with an empty mutex registry. -/
def dbDriver : Driver := ⟨["db"], []⟩

/-- A driver with one mutex already registered. -/
def dbDriverC : Driver := ⟨["db"], ["c"]⟩

/-- Filesystem with `db/c/r.json.json` but no `db/c/r.json`. -/
def fsUpdateQuirk : Fs :=
  [(["db"], .dir), (["db", "c"], .dir), (["db", "c", "r.json.json"], .file [49])]

/-- Filesystem where the bare path `db/c/r` is a directory while
`db/c/r.json` also exists. -/
def fsDirQuirk : Fs :=
  [(["db"], .dir), (["db", "c"], .dir), (["db", "c", "r"], .dir),
   (["db", "c", "r.json"], .file [49]), (["db", "c", "o.json"], .file [50])]

/-- Filesystem where the collection resolves only through `c.json`, so
directory enumeration of `db/c` fails. -/
def fsEnumQuirk : Fs := [(["db"], .dir), (["db", "c.json"], .file [])]

/-- Ordinary filesystem with two resources in one collection. -/
def fsBase : Fs :=
  [(["db"], .dir), (["db", "c"], .dir),
   (["db", "c", "r.json"], .file [49]), (["db", "c", "o.json"], .file [50])]

/-- Filesystem whose collection directory contains a subdirectory, so
reading that entry as a file fails. -/
def fsSubdir : Fs := [(["db"], .dir), (["db", "c"], .dir), (["db", "c", "sub"], .dir)]

/-! Helper lemmas about the filesystem model. -/

theorem fsLookup_fsErase (fs : Fs) (p q : Path) :
    fsLookup (fsErase fs p) q = if q = p then none else fsLookup fs q := by
  induction fs with
  | nil => simp [fsErase, fsLookup]
  | cons e rest ih =>
    simp only [fsErase]
    by_cases h1 : e.1 = p
    · rw [if_pos h1, ih]
      by_cases h2 : q = p
      · rw [if_pos h2, if_pos h2]
      · have h3 : ¬ e.1 = q := fun h => h2 (h ▸ h1)
        rw [if_neg h2, if_neg h2]
        simp [fsLookup, h3]
    · rw [if_neg h1]
      simp only [fsLookup, ih]
      by_cases h2 : e.1 = q
      · have h3 : ¬ q = p := fun h => h1 (h2.trans h)
        rw [if_pos h2, if_neg h3, if_pos h2]
      · rw [if_neg h2, if_neg h2]

theorem fsLookup_fsSet (fs : Fs) (p q : Path) (n : FNode) :
    fsLookup (fsSet fs p n) q = if q = p then some n else fsLookup fs q := by
  simp only [fsSet, fsLookup]
  rw [fsLookup_fsErase]
  by_cases h : q = p
  · rw [if_pos h, if_pos (h ▸ rfl : p = q), if_pos h]
  · have h2 : ¬ p = q := fun hp => h hp.symm
    rw [if_neg h, if_neg h2, if_neg h]

theorem fsLookup_removeAllFs (fs : Fs) (p q : Path) :
    fsLookup (removeAllFs fs p) q = if p <+: q then none else fsLookup fs q := by
  induction fs with
  | nil => simp [removeAllFs, fsLookup]
  | cons e rest ih =>
    by_cases h1 : p <+: e.1
    · by_cases h2 : p <+: q
      · simp [removeAllFs, fsLookup, h1, h2, ih]
      · have : ¬ e.1 = q := fun hq => h2 (hq ▸ h1)
        simp [removeAllFs, fsLookup, h1, h2, this, ih]
    · by_cases h2 : e.1 = q
      · have : ¬ p <+: q := fun hq => h1 (h2 ▸ hq)
        simp [removeAllFs, fsLookup, h1, h2, this]
      · simp [removeAllFs, fsLookup, h1, h2, ih]

theorem addExt_concat (l : Path) (x e : String) :
    addExt (l ++ [x]) e = l ++ [x ++ e] := by
  induction l with
  | nil => simp [addExt]
  | cons c rest ih =>
    cases rest with
    | nil => simp [addExt]
    | cons c2 rest2 => simpa [addExt] using ih

theorem str_append_ne (x e : String) (he : e.length ≠ 0) : x ≠ x ++ e := by
  intro h
  have := congrArg String.length h
  simp [String.length_append] at this
  exact he this

theorem str_append_ne_empty (x e : String) (he : e.length ≠ 0) : x ++ e ≠ "" := by
  intro h
  have := congrArg String.length h
  simp [String.length_append] at this
  exact he this.2

theorem joinNames_pair (c r : String) (hc : c ≠ "") (hr : r ≠ "") :
    joinNames [c, r] = [c, r] := by
  simp [joinNames, hc, hr]

theorem joinNames_single (c : String) (hc : c ≠ "") : joinNames [c] = [c] := by
  simp [joinNames, hc]

theorem pathJoin_single (p : Path) (c : String) (hc : c ≠ "") :
    pathJoin p [c] = p ++ [c] := by
  simp [pathJoin, joinNames_single c hc]

theorem pathJoin_pair (p : Path) (c r : String) (hc : c ≠ "") (hr : r ≠ "") :
    pathJoin p [c, r] = p ++ [c, r] := by
  simp [pathJoin, joinNames_pair c r hc hr]

theorem mem_nePrefixes_isPre {q p : Path} (h : q ∈ nePrefixes p) : q <+: p := by
  induction p generalizing q with
  | nil => simp [nePrefixes] at h
  | cons c rest ih =>
    simp only [nePrefixes, List.mem_cons, List.mem_map] at h
    rcases h with h | ⟨q', hq', rfl⟩
    · rw [h]; exact ⟨rest, rfl⟩
    · obtain ⟨t, ht⟩ := ih hq'
      exact ⟨t, by simp [ht]⟩

theorem self_mem_nePrefixes {p : Path} (h : p ≠ []) : p ∈ nePrefixes p := by
  induction p with
  | nil => exact absurd rfl h
  | cons c rest ih =>
    cases rest with
    | nil => simp [nePrefixes]
    | cons c2 rest2 =>
      have ih' := ih (by simp)
      simp only [nePrefixes, List.mem_cons, List.mem_map] at ih' ⊢
      exact Or.inr ⟨c2 :: rest2, ih', rfl⟩

theorem mem_nePrefixes_length {q p : Path} (h : q ∈ nePrefixes p) :
    q.length ≤ p.length :=
  (mem_nePrefixes_isPre h).length_le

/-! Lemmas about `mkdirSteps`. -/

theorem mkdirSteps_keeps_dir {fs : Fs} {l : List Path} {q : Path}
    (h : fsLookup fs q = some .dir) :
    fsLookup (mkdirSteps fs l).2 q = some .dir := by
  induction l generalizing fs with
  | nil => simpa [mkdirSteps] using h
  | cons p0 ps ih =>
    simp only [mkdirSteps]
    cases hl : fsLookup fs p0 with
    | none =>
      simp only []
      apply ih
      rw [fsLookup_fsSet]
      split
      · rfl
      · exact h
    | some n =>
      cases n with
      | file b => simpa [hl] using h
      | dir => simpa using ih h

theorem mkdirSteps_ok_of_noFile {fs : Fs} {l : List Path}
    (h : ∀ q ∈ l, ∀ b, fsLookup fs q ≠ some (.file b)) :
    (mkdirSteps fs l).1 = .ok () := by
  induction l generalizing fs with
  | nil => simp [mkdirSteps]
  | cons p0 ps ih =>
    simp only [mkdirSteps]
    cases hl : fsLookup fs p0 with
    | none =>
      simp only []
      apply ih
      intro q hq b
      rw [fsLookup_fsSet]
      split
      · simp
      · exact h q (List.mem_cons_of_mem _ hq) b
    | some n =>
      cases n with
      | file b => exact absurd hl (h p0 (List.mem_cons_self _ _) b)
      | dir =>
        simp only []
        apply ih
        intro q hq b
        exact h q (List.mem_cons_of_mem _ hq) b

theorem mkdirSteps_mem_dir {fs : Fs} {l : List Path} {q : Path}
    (hok : (mkdirSteps fs l).1 = .ok ()) (hq : q ∈ l) :
    fsLookup (mkdirSteps fs l).2 q = some .dir := by
  induction l generalizing fs with
  | nil => simp at hq
  | cons p0 ps ih =>
    simp only [mkdirSteps] at hok ⊢
    cases hl : fsLookup fs p0 with
    | none =>
      simp only [hl] at hok ⊢
      rcases List.mem_cons.mp hq with rfl | hq'
      · exact mkdirSteps_keeps_dir (by rw [fsLookup_fsSet]; simp)
      · exact ih hok hq'
    | some n =>
      cases n with
      | file b => simp [hl] at hok
      | dir =>
        simp only [hl] at hok ⊢
        rcases List.mem_cons.mp hq with rfl | hq'
        · exact mkdirSteps_keeps_dir hl
        · exact ih hok hq'

theorem mkdirSteps_frame {fs : Fs} {l : List Path} {q : Path} (hq : q ∉ l) :
    fsLookup (mkdirSteps fs l).2 q = fsLookup fs q := by
  induction l generalizing fs with
  | nil => simp [mkdirSteps]
  | cons p0 ps ih =>
    have hq0 : q ≠ p0 := fun h => hq (h ▸ List.mem_cons_self _ _)
    have hqs : q ∉ ps := fun h => hq (List.mem_cons_of_mem _ h)
    simp only [mkdirSteps]
    cases hl : fsLookup fs p0 with
    | none =>
      simp only []
      rw [ih hqs, fsLookup_fsSet]
      simp [hq0]
    | some n =>
      cases n with
      | file b => simp [fsLookup]
      | dir => simpa using ih hqs

/-! Path shape lemmas. -/

theorem dropLast_two (p : Path) (c y : String) :
    (p ++ [c, y]).dropLast = p ++ [c] := by
  rw [show p ++ [c, y] = (p ++ [c]) ++ [y] by simp, List.dropLast_concat]

theorem addExt_two (p : Path) (c x e : String) :
    addExt (p ++ [c, x]) e = p ++ [c, x ++ e] := by
  rw [show p ++ [c, x] = (p ++ [c]) ++ [x] by simp, addExt_concat]
  simp

theorem addJson_two (p : Path) (c x : String) :
    addJson (p ++ [c, x]) = p ++ [c, x ++ (".json")] :=
  addExt_two p c x (".json")

/-! Lemmas about `stat`. -/

theorem stat_of_bare {fs : Fs} {p : Path} {fi : FNode}
    (h : fsLookup fs p = some fi) : stat fs p = .ok fi := by
  simp [stat, h]

theorem stat_of_json {fs : Fs} {p : Path} {fi : FNode}
    (h0 : fsLookup fs p = none) (h : fsLookup fs (addJson p) = some fi) :
    stat fs p = .ok fi := by
  simp [stat, h0, h]

theorem stat_err {fs : Fs} {p : Path}
    (h0 : fsLookup fs p = none) (h1 : fsLookup fs (addJson p) = none) :
    stat fs p = .error (.notFound (addJson p)) := by
  simp [stat, h0, h1]

theorem statProbes_of_bare {fs : Fs} {p : Path} {fi : FNode}
    (h : fsLookup fs p = some fi) : statProbes fs p = [p] := by
  simp [statProbes, h]

theorem statProbes_of_missing {fs : Fs} {p : Path}
    (h : fsLookup fs p = none) : statProbes fs p = [p, addJson p] := by
  simp [statProbes, h]

/-! Characterization of a successful `Write`, and inversion of a
successful `Write`. -/

theorem writeFileFs_ok {fs : Fs} {p : Path} {b : List Nat}
    (hne : p ≠ []) (hpar : p.dropLast = [] ∨ fsLookup fs p.dropLast = some .dir)
    (hnd : fsLookup fs p ≠ some FNode.dir) :
    writeFileFs fs p b = .ok (fsSet fs p (.file b)) := by
  rw [writeFileFs, if_neg hne, if_pos hpar, if_neg hnd]

theorem writeFileFs_ok_inv {fs : Fs} {p : Path} {b : List Nat} {fs2 : Fs}
    (h : writeFileFs fs p b = .ok fs2) : fs2 = fsSet fs p (.file b) := by
  rw [writeFileFs] at h
  split at h
  · exact absurd h (by simp)
  · split at h
    · split at h
      · exact absurd h (by simp)
      · simpa using h.symm
    · exact absurd h (by simp)

theorem write_ok_parts {V : Type} (C : Codec V) (d : Driver) (fs0 : Fs)
    (c r : String) (v : V) (b : List Nat)
    (hc : c ≠ "") (hr : r ≠ "")
    (hnf : ∀ q ∈ nePrefixes (d.dir ++ [c]), ∀ bb, fsLookup fs0 q ≠ some (.file bb))
    (hnd : fsLookup fs0 (d.dir ++ [c, r ++ (".json") ++ (".tmp")]) ≠ some FNode.dir)
    (hfd : fsLookup fs0 (d.dir ++ [c, r ++ (".json")]) ≠ some FNode.dir)
    (hm : C.marshal v = some b) :
    (Driver.Write C d fs0 c r v).res = .ok () ∧
    (Driver.Write C d fs0 c r v).fsTrace =
      [.mkdirOp (d.dir ++ [c]),
       .writeOp (d.dir ++ [c, r ++ (".json") ++ (".tmp")]) (b ++ [10]),
       .renameOp (d.dir ++ [c, r ++ (".json") ++ (".tmp")])
         (d.dir ++ [c, r ++ (".json")])] ∧
    fsLookup (Driver.Write C d fs0 c r v).fs (d.dir ++ [c, r ++ (".json")]) =
      some (.file (b ++ [10])) ∧
    fsLookup (Driver.Write C d fs0 c r v).fs
      (d.dir ++ [c, r ++ (".json") ++ (".tmp")]) = none := by
  have hjson : (r ++ (".json")) ≠ "" := str_append_ne_empty r (".json") (by decide)
  have hne2 : d.dir ++ [c, r ++ (".json")] ≠ d.dir ++ [c, r ++ (".json") ++ (".tmp")] := by
    intro h
    have h2 : r ++ (".json") = r ++ (".json") ++ (".tmp") := by
      simpa using h
    exact str_append_ne (r ++ (".json")) (".tmp") (by decide) h2
  have hok1 : (mkdirSteps fs0 (nePrefixes (d.dir ++ [c]))).1 = .ok () :=
    mkdirSteps_ok_of_noFile hnf
  simp only [Driver.Write, if_neg hc, if_neg hr,
    pathJoin_single d.dir c hc, pathJoin_single (d.dir ++ [c]) _ hjson,
    show (d.dir ++ [c]) ++ [r ++ (".json")] = d.dir ++ [c, r ++ (".json")] by simp,
    addExt_two]
  rcases hpair : mkdirAll fs0 (d.dir ++ [c]) with ⟨res1, fs1⟩
  have hres1 : res1 = .ok () := by
    have h2 : (mkdirAll fs0 (d.dir ++ [c])).1 = .ok () := hok1
    rw [hpair] at h2
    exact h2
  subst hres1
  have hdir1 : fsLookup fs1 (d.dir ++ [c]) = some .dir := by
    have h2 := mkdirSteps_mem_dir hok1 (self_mem_nePrefixes
      (show d.dir ++ [c] ≠ [] by simp))
    rw [show mkdirSteps fs0 (nePrefixes (d.dir ++ [c])) = mkdirAll fs0 (d.dir ++ [c])
      from rfl, hpair] at h2
    exact h2
  have hfr : fsLookup fs1 (d.dir ++ [c, r ++ (".json") ++ (".tmp")]) =
      fsLookup fs0 (d.dir ++ [c, r ++ (".json") ++ (".tmp")]) := by
    have h2 : fsLookup (mkdirSteps fs0 (nePrefixes (d.dir ++ [c]))).2
        (d.dir ++ [c, r ++ (".json") ++ (".tmp")]) =
        fsLookup fs0 (d.dir ++ [c, r ++ (".json") ++ (".tmp")]) := by
      apply mkdirSteps_frame
      intro hmem
      have := mem_nePrefixes_length hmem
      simp at this
    rw [show mkdirSteps fs0 (nePrefixes (d.dir ++ [c])) = mkdirAll fs0 (d.dir ++ [c])
      from rfl, hpair] at h2
    exact h2
  have hfr2 : fsLookup fs1 (d.dir ++ [c, r ++ (".json")]) =
      fsLookup fs0 (d.dir ++ [c, r ++ (".json")]) := by
    have h2 : fsLookup (mkdirSteps fs0 (nePrefixes (d.dir ++ [c]))).2
        (d.dir ++ [c, r ++ (".json")]) =
        fsLookup fs0 (d.dir ++ [c, r ++ (".json")]) := by
      apply mkdirSteps_frame
      intro hmem
      have := mem_nePrefixes_length hmem
      simp at this
    rw [show mkdirSteps fs0 (nePrefixes (d.dir ++ [c])) = mkdirAll fs0 (d.dir ++ [c])
      from rfl, hpair] at h2
    exact h2
  have hwf : writeFileFs fs1 (d.dir ++ [c, r ++ (".json") ++ (".tmp")]) (b ++ [10]) =
      .ok (fsSet fs1 (d.dir ++ [c, r ++ (".json") ++ (".tmp")]) (.file (b ++ [10]))) := by
    apply writeFileFs_ok (by simp)
    · rw [dropLast_two]
      exact Or.inr hdir1
    · rw [hfr]
      exact hnd
  have hsrc : fsLookup
      (fsSet fs1 (d.dir ++ [c, r ++ (".json") ++ (".tmp")]) (.file (b ++ [10])))
      (d.dir ++ [c, r ++ (".json") ++ (".tmp")]) = some (.file (b ++ [10])) := by
    rw [fsLookup_fsSet, if_pos rfl]
  have hdst : fsLookup
      (fsSet fs1 (d.dir ++ [c, r ++ (".json") ++ (".tmp")]) (.file (b ++ [10])))
      (d.dir ++ [c, r ++ (".json")]) ≠ some FNode.dir := by
    rw [fsLookup_fsSet, if_neg hne2, hfr2]
    exact hfd
  have hrn : renameFs
      (fsSet fs1 (d.dir ++ [c, r ++ (".json") ++ (".tmp")]) (.file (b ++ [10])))
      (d.dir ++ [c, r ++ (".json") ++ (".tmp")]) (d.dir ++ [c, r ++ (".json")]) =
      .ok (fsSet
        (fsErase (fsSet fs1 (d.dir ++ [c, r ++ (".json") ++ (".tmp")])
            (.file (b ++ [10])))
          (d.dir ++ [c, r ++ (".json") ++ (".tmp")]))
        (d.dir ++ [c, r ++ (".json")]) (.file (b ++ [10]))) := by
    simp only [renameFs, hsrc, if_neg hdst]
  simp only [hm, hwf, hrn]
  refine ⟨by simp, by simp, ?_, ?_⟩
  · rw [fsLookup_fsSet, if_pos rfl]
  · rw [fsLookup_fsSet, if_neg (fun h => hne2 h.symm), fsLookup_fsErase, if_pos rfl]

theorem write_ok_inv {V : Type} {C : Codec V} {d : Driver} {fs0 : Fs}
    {c r : String} {v : V}
    (hc : c ≠ "") (hr : r ≠ "")
    (hok : (Driver.Write C d fs0 c r v).res = .ok ()) :
    ∃ b, C.marshal v = some b ∧
      fsLookup (Driver.Write C d fs0 c r v).fs (d.dir ++ [c, r ++ (".json")]) =
        some (.file (b ++ [10])) ∧
      fsLookup (Driver.Write C d fs0 c r v).fs
        (d.dir ++ [c, r ++ (".json") ++ (".tmp")]) = none ∧
      (Driver.Write C d fs0 c r v).fsTrace =
        [.mkdirOp (d.dir ++ [c]),
         .writeOp (d.dir ++ [c, r ++ (".json") ++ (".tmp")]) (b ++ [10]),
         .renameOp (d.dir ++ [c, r ++ (".json") ++ (".tmp")])
           (d.dir ++ [c, r ++ (".json")])] := by
  have hjson : (r ++ (".json")) ≠ "" := str_append_ne_empty r (".json") (by decide)
  have hne2 : d.dir ++ [c, r ++ (".json")] ≠ d.dir ++ [c, r ++ (".json") ++ (".tmp")] := by
    intro h
    have h2 : r ++ (".json") = r ++ (".json") ++ (".tmp") := by
      simpa using h
    exact str_append_ne (r ++ (".json")) (".tmp") (by decide) h2
  simp only [Driver.Write, if_neg hc, if_neg hr,
    pathJoin_single d.dir c hc, pathJoin_single (d.dir ++ [c]) _ hjson,
    show (d.dir ++ [c]) ++ [r ++ (".json")] = d.dir ++ [c, r ++ (".json")] by simp,
    addExt_two] at hok ⊢
  rcases hpair : mkdirAll fs0 (d.dir ++ [c]) with ⟨res1, fs1⟩
  rw [hpair] at hok
  cases res1 with
  | error e => simp at hok
  | ok u =>
    cases hm : C.marshal v with
    | none => simp [hm] at hok
    | some b =>
      cases hwf : writeFileFs fs1 (d.dir ++ [c, r ++ (".json") ++ (".tmp")]) (b ++ [10]) with
      | error e => simp [hm, hwf] at hok
      | ok fs2 =>
        have hfs2 := writeFileFs_ok_inv hwf
        have hlk : fsLookup fs2 (d.dir ++ [c, r ++ (".json") ++ (".tmp")]) =
            some (.file (b ++ [10])) := by
          rw [hfs2, fsLookup_fsSet, if_pos rfl]
        by_cases hdst : fsLookup fs2 (d.dir ++ [c, r ++ (".json")]) = some FNode.dir
        · simp [hm, hwf, renameFs, hlk, hdst] at hok
        · simp only [hm, hwf, renameFs, hlk, if_neg hdst]
          refine ⟨b, rfl, ?_, ?_, rfl⟩
          · rw [fsLookup_fsSet, if_pos rfl]
          · rw [fsLookup_fsSet, if_neg (fun h => hne2 h.symm), fsLookup_fsErase, if_pos rfl]

/-! Lemmas about the mutex registry and runs of driver operations. -/

theorem getOrCreateMutex_mono (m : List String) (c : String) :
    m <+: (getOrCreateMutex m c).2 := by
  rw [getOrCreateMutex]
  cases mutexIdx m c with
  | none => exact ⟨[c], rfl⟩
  | some i => exact List.prefix_refl m

theorem mutexIdx_append_of_mem {m : List String} (t : List String) {c : String}
    (h : c ∈ m) : mutexIdx (m ++ t) c = mutexIdx m c := by
  induction m with
  | nil => simp at h
  | cons x xs ih =>
    by_cases hx : x = c
    · simp [mutexIdx, hx]
    · have h2 : c ∈ xs := by
        rcases List.mem_cons.mp h with h3 | h3
        · exact absurd h3.symm hx
        · exact h3
      simp [mutexIdx, hx, ih h2]

theorem mutexIdx_of_isPre {m m2 : List String} {c : String}
    (hp : m <+: m2) (h : c ∈ m) : mutexIdx m2 c = mutexIdx m c := by
  obtain ⟨t, rfl⟩ := hp
  exact mutexIdx_append_of_mem t h

theorem write_mutexes_shape {V : Type} (C : Codec V) (d : Driver) (fs0 : Fs)
    (c r : String) (v : V) :
    (Driver.Write C d fs0 c r v).mutexes = d.mutexes ∨
    (Driver.Write C d fs0 c r v).mutexes = (getOrCreateMutex d.mutexes c).2 := by
  by_cases hc : c = ""
  · left; simp [Driver.Write, hc]
  · by_cases hr : r = ""
    · left; simp [Driver.Write, hc, hr]
    · right
      simp only [Driver.Write, if_neg hc, if_neg hr]
      split
      · rfl
      · split
        · rfl
        · split
          · rfl
          · split <;> rfl

theorem read_mutexes_shape {V : Type} (C : Codec V) (d : Driver) (fs0 : Fs)
    (c r : String) :
    (Driver.Read C d fs0 c r).mutexes = d.mutexes := by
  by_cases hc : c = ""
  · simp [Driver.Read, hc]
  · by_cases hr : r = ""
    · simp [Driver.Read, hc, hr]
    · simp only [Driver.Read, if_neg hc, if_neg hr]
      split
      · rfl
      · split
        · rfl
        · split <;> rfl

theorem readAll_mutexes_shape (d : Driver) (fs0 : Fs) (c : String) :
    (Driver.ReadAll d fs0 c).mutexes = d.mutexes := by
  by_cases hc : c = ""
  · simp [Driver.ReadAll, hc]
  · simp only [Driver.ReadAll, if_neg hc]
    split
    · rfl
    · split <;> rfl

theorem update_mutexes_shape {V : Type} (C : Codec V) (d : Driver) (fs0 : Fs)
    (c r : String) (v : V) :
    (Driver.Update C d fs0 c r v).mutexes = d.mutexes ∨
    (Driver.Update C d fs0 c r v).mutexes = (getOrCreateMutex d.mutexes c).2 := by
  by_cases hc : c = ""
  · left; simp [Driver.Update, hc]
  · by_cases hr : r = ""
    · left; simp [Driver.Update, hc, hr]
    · right
      simp only [Driver.Update, if_neg hc, if_neg hr]
      split
      · rfl
      · split
        · rfl
        · split <;> rfl

theorem delete_mutexes_shape (d : Driver) (fs0 : Fs) (c r : String) :
    (Driver.Delete d fs0 c r).mutexes = (getOrCreateMutex d.mutexes c).2 := by
  simp only [Driver.Delete]
  split <;> rfl

theorem stepOp_mutexes_mono {V : Type} (C : Codec V) (d : Driver) (fs : Fs)
    (op : DbOp V) : d.mutexes <+: (stepOp C d fs op).1.mutexes := by
  cases op with
  | writeCall c r v =>
    rcases write_mutexes_shape C d fs c r v with h | h <;>
      simp only [stepOp, h]
    · exact List.prefix_refl _
    · exact getOrCreateMutex_mono d.mutexes c
  | readCall c r =>
    simp only [stepOp, read_mutexes_shape C d fs c r]
    exact List.prefix_refl _
  | readAllCall c =>
    simp only [stepOp, readAll_mutexes_shape d fs c]
    exact List.prefix_refl _
  | updateCall c r v =>
    rcases update_mutexes_shape C d fs c r v with h | h <;>
      simp only [stepOp, h]
    · exact List.prefix_refl _
    · exact getOrCreateMutex_mono d.mutexes c
  | deleteCall c r =>
    simp only [stepOp, delete_mutexes_shape d fs c r]
    exact getOrCreateMutex_mono d.mutexes c

theorem runOps_mutexes_mono {V : Type} (C : Codec V) (d : Driver) (fs : Fs)
    (ops : List (DbOp V)) : d.mutexes <+: (runOps C d fs ops).1.mutexes := by
  induction ops generalizing d fs with
  | nil => exact List.prefix_refl _
  | cons op ops ih =>
    exact (stepOp_mutexes_mono C d fs op).trans (ih (stepOp C d fs op).1 (stepOp C d fs op).2)

/-! Lemmas about the `ReadAll` loop. -/

theorem readAllLoop_err {fs : Fs} {dir : Path} {files : List String}
    (h : ∃ f ∈ files, readFileFs fs (pathJoin dir [f]) = none) :
    readAllLoop fs dir files = .error .ioError := by
  induction files with
  | nil => simp at h
  | cons f rest ih =>
    rcases h with ⟨f2, hf2, hnone⟩
    rcases List.mem_cons.mp hf2 with rfl | hmem
    · simp [readAllLoop, hnone]
    · cases hf : readFileFs fs (pathJoin dir [f]) with
      | none => simp [readAllLoop, hf]
      | some b => simp [readAllLoop, hf, ih ⟨f2, hmem, hnone⟩]

theorem readAllLoop_ok {fs : Fs} {dir : Path} {files : List String}
    {recs : List (List Nat)} (h : readAllLoop fs dir files = .ok recs) :
    recs = files.map (fun f => (readFileFs fs (pathJoin dir [f])).getD []) ∧
    ∀ f ∈ files, (readFileFs fs (pathJoin dir [f])).isSome := by
  induction files generalizing recs with
  | nil =>
    simp only [readAllLoop] at h
    obtain rfl : recs = [] := by
      cases h; rfl
    simp
  | cons f rest ih =>
    simp only [readAllLoop] at h
    cases hf : readFileFs fs (pathJoin dir [f]) with
    | none => rw [hf] at h; exact absurd h (by simp)
    | some b =>
      rw [hf] at h
      cases hrest : readAllLoop fs dir rest with
      | error e => rw [hrest] at h; exact absurd h (by simp)
      | ok recs2 =>
        rw [hrest] at h
        obtain rfl : recs = b :: recs2 := by
          cases h; rfl
        obtain ⟨hmap, hall⟩ := ih hrest
        constructor
        · simp [hf, hmap]
        · intro f2 hf2
          rcases List.mem_cons.mp hf2 with rfl | hmem
          · simp [hf]
          · exact hall f2 hmem

theorem fsLookup_none_of_long {fs : Fs} {q : Path} {n : Nat}
    (hall : ∀ e ∈ fs, e.1.length ≤ n) (hq : n < q.length) :
    fsLookup fs q = none := by
  induction fs with
  | nil => rfl
  | cons e rest ih =>
    have he : ¬ e.1 = q := by
      intro h
      have h1 := hall e (List.mem_cons_self _ _)
      rw [h] at h1
      omega
    simp only [fsLookup, if_neg he]
    exact ih fun e2 h2 => hall e2 (List.mem_cons_of_mem _ h2)

theorem readDirFs_some_dir {fs : Fs} {p : Path} {files : List String}
    (h : readDirFs fs p = some files) : fsLookup fs p = some .dir := by
  rw [readDirFs] at h
  cases hl : fsLookup fs p with
  | none => rw [hl] at h; exact absurd h (by simp)
  | some fi =>
    cases fi with
    | dir => rfl
    | file b => rw [hl] at h; exact absurd h (by simp)

theorem joinNames_first (c : String) (hc : c ≠ "") : joinNames [c, ""] = [c] := by
  simp [joinNames, hc]

theorem write_marshal_none {V : Type} (C : Codec V) (d : Driver) (fs0 : Fs)
    (c r : String) (v : V)
    (hc : c ≠ "") (hr : r ≠ "")
    (hnf : ∀ q ∈ nePrefixes (d.dir ++ [c]), ∀ bb, fsLookup fs0 q ≠ some (.file bb))
    (hm : C.marshal v = none) :
    (Driver.Write C d fs0 c r v).res = .error .serializationError := by
  have hok1 : (mkdirSteps fs0 (nePrefixes (d.dir ++ [c]))).1 = .ok () :=
    mkdirSteps_ok_of_noFile hnf
  simp only [Driver.Write, if_neg hc, if_neg hr, pathJoin_single d.dir c hc]
  rcases hpair : mkdirAll fs0 (d.dir ++ [c]) with ⟨res1, fs1⟩
  have hres1 : res1 = .ok () := by
    have h2 : (mkdirAll fs0 (d.dir ++ [c])).1 = .ok () := hok1
    rw [hpair] at h2
    exact h2
  subst hres1
  simp [hm]

/-! The claim theorems. -/

/-- Claim C1: for every non-empty collection and resource and every
serializable value (and a filesystem in which the collection path can
be created and neither the temporary path nor the final path is an
existing directory, so the write and the rename can succeed), `Write`
serializes the value with a trailing newline, writes those bytes to the
temporary sibling `<rootDir>/<collection>/<resource>.json.tmp`, and
renames that temporary file onto `<rootDir>/<collection>/<resource>.json`
as its last filesystem step, leaving the final file with exactly those
bytes and no temporary file behind; when the value cannot be serialized
`Write` returns the serialization error. -/
theorem C1_write_protocol {V : Type} (C : Codec V) (d : Driver) (fs0 : Fs)
    (c r : String) (v : V)
    (hc : c ≠ "") (hr : r ≠ "")
    (hnf : ∀ q ∈ nePrefixes (d.dir ++ [c]), ∀ bb, fsLookup fs0 q ≠ some (.file bb))
    (hnd : fsLookup fs0 (d.dir ++ [c, r ++ (".json") ++ (".tmp")]) ≠ some FNode.dir)
    (hfd : fsLookup fs0 (d.dir ++ [c, r ++ (".json")]) ≠ some FNode.dir) :
    (C.marshal v = none →
      (Driver.Write C d fs0 c r v).res = .error .serializationError) ∧
    (∀ b, C.marshal v = some b →
      (Driver.Write C d fs0 c r v).res = .ok () ∧
      (Driver.Write C d fs0 c r v).fsTrace =
        [.mkdirOp (d.dir ++ [c]),
         .writeOp (d.dir ++ [c, r ++ (".json") ++ (".tmp")]) (b ++ [10]),
         .renameOp (d.dir ++ [c, r ++ (".json") ++ (".tmp")])
           (d.dir ++ [c, r ++ (".json")])] ∧
      fsLookup (Driver.Write C d fs0 c r v).fs (d.dir ++ [c, r ++ (".json")]) =
        some (.file (b ++ [10])) ∧
      fsLookup (Driver.Write C d fs0 c r v).fs
        (d.dir ++ [c, r ++ (".json") ++ (".tmp")]) = none) := by
  constructor
  · exact write_marshal_none C d fs0 c r v hc hr hnf
  · intro b hm
    exact write_ok_parts C d fs0 c r v b hc hr hnf hnd hfd hm

theorem C1_witness :
    ((Driver.Write bytesCodec dbDriver [] "c" "r" [65]).res = .ok () ∧
      (Driver.Write bytesCodec dbDriver [] "c" "r" [65]).fsTrace =
        [.mkdirOp ["db", "c"],
         .writeOp ["db", "c", "r.json.tmp"] [65, 10],
         .renameOp ["db", "c", "r.json.tmp"] ["db", "c", "r.json"]] ∧
      fsLookup (Driver.Write bytesCodec dbDriver [] "c" "r" [65]).fs
        ["db", "c", "r.json"] = some (.file [65, 10]) ∧
      fsLookup (Driver.Write bytesCodec dbDriver [] "c" "r" [65]).fs
        ["db", "c", "r.json.tmp"] = none) ∧
    (Driver.Write noneCodec dbDriver [] "c" "r" [65]).res =
      .error .serializationError := by
  constructor
  · have h := C1_write_protocol bytesCodec dbDriver [] "c" "r" [65]
      (by decide) (by decide)
      (by intro q hq bb; simp [fsLookup])
      (by simp [fsLookup])
      (by simp [fsLookup])
    have h2 := h.2 [65] rfl
    exact h2
  · have h := C1_write_protocol noneCodec dbDriver [] "c" "r" [65]
      (by decide) (by decide)
      (by intro q hq bb; simp [fsLookup])
      (by simp [fsLookup])
      (by simp [fsLookup])
    exact h.1 rfl

/-- Claim C2: for every non-empty collection and resource and every
serializable value whose serialized bytes deserialize back to the same
value, a successful `Write` followed by `Read` of the same (collection,
resource) yields exactly the value that was written. -/
theorem C2_write_read_roundtrip {V : Type} (C : Codec V) (d : Driver) (fs0 : Fs)
    (c r : String) (v : V) (b : List Nat)
    (hc : c ≠ "") (hr : r ≠ "")
    (hm : C.marshal v = some b)
    (hu : C.unmarshal (b ++ [10]) = some v)
    (hok : (Driver.Write C d fs0 c r v).res = .ok ()) :
    (Driver.Read C d (Driver.Write C d fs0 c r v).fs c r).res = .ok v := by
  obtain ⟨b2, hm2, hfnl, htmp, htr⟩ := write_ok_inv hc hr hok
  have hb : b2 = b := by
    rw [hm] at hm2
    exact (Option.some_inj.mp hm2).symm
  rw [hb] at hfnl
  have hjrec : addJson (d.dir ++ [c, r]) = d.dir ++ [c, r ++ (".json")] :=
    addJson_two d.dir c r
  have hrf : readFileFs (Driver.Write C d fs0 c r v).fs
      (addJson (d.dir ++ [c, r])) = some (b ++ [10]) := by
    rw [hjrec]
    simp [readFileFs, hfnl]
  have hstat : ∃ fi, stat (Driver.Write C d fs0 c r v).fs (d.dir ++ [c, r]) = .ok fi := by
    cases hbare : fsLookup (Driver.Write C d fs0 c r v).fs (d.dir ++ [c, r]) with
    | some fi => exact ⟨fi, stat_of_bare hbare⟩
    | none =>
      refine ⟨.file (b ++ [10]), stat_of_json hbare ?_⟩
      rw [hjrec]
      exact hfnl
  obtain ⟨fi, hstat⟩ := hstat
  simp only [Driver.Read, if_neg hc, if_neg hr, pathJoin_pair d.dir c r hc hr,
    hstat, hrf, hu]

theorem C2_witness :
    (Driver.Write bytesCodec dbDriver [] "c" "r" [65]).res = .ok () ∧
    (Driver.Read bytesCodec dbDriver
      (Driver.Write bytesCodec dbDriver [] "c" "r" [65]).fs "c" "r").res =
      .ok [65] := by
  refine ⟨rfl, ?_⟩
  exact C2_write_read_roundtrip bytesCodec dbDriver [] "c" "r" [65] [65]
    (by decide) (by decide) rfl rfl rfl

/-- Claim C3 (amended): `Update` fails with the not-found error and
leaves the filesystem untouched whenever neither
`<rootDir>/<collection>/<resource>.json` nor its `.json`-suffixed
variant `<resource>.json.json` exists; when the `.json.json` variant
exists but `<resource>.json` does not, the path-resolution helper
succeeds and `Update` proceeds, creating `<resource>.json` — so the
original claim's "whenever `<resource>.json` does not exist" is too
strong. -/
theorem C3_update_requires_existing {V : Type} (C : Codec V) (d : Driver)
    (fs0 : Fs) (c r : String) (v : V)
    (hc : c ≠ "") (hr : r ≠ "")
    (h1 : fsLookup fs0 (d.dir ++ [c, r ++ (".json")]) = none)
    (h2 : fsLookup fs0 (d.dir ++ [c, r ++ (".json") ++ (".json")]) = none) :
    (Driver.Update C d fs0 c r v).res =
      .error (.notFound (d.dir ++ [c, r ++ (".json") ++ (".json")])) ∧
    (Driver.Update C d fs0 c r v).fs = fs0 := by
  have hjson : (r ++ (".json")) ≠ "" := str_append_ne_empty r (".json") (by decide)
  have hstat : stat fs0 (d.dir ++ [c, r ++ (".json")]) =
      .error (.notFound (d.dir ++ [c, r ++ (".json") ++ (".json")])) := by
    have h3 := stat_err h1 (by rw [addJson_two]; exact h2)
    rw [addJson_two] at h3
    exact h3
  simp only [Driver.Update, if_neg hc, if_neg hr,
    pathJoin_pair d.dir c (r ++ (".json")) hc hjson, hstat]
  simp

theorem C3_counterexample :
    fsLookup fsUpdateQuirk ["db", "c", "r.json"] = none ∧
    (Driver.Update bytesCodec dbDriver fsUpdateQuirk "c" "r" [50]).res = .ok () ∧
    fsLookup (Driver.Update bytesCodec dbDriver fsUpdateQuirk "c" "r" [50]).fs
      ["db", "c", "r.json"] = some (.file [50, 10]) :=
  ⟨rfl, rfl, rfl⟩

theorem C3_witness :
    (Driver.Update bytesCodec dbDriver fsEnumQuirk "c" "r" [50]).res =
      .error (.notFound ["db", "c", "r.json.json"]) ∧
    (Driver.Update bytesCodec dbDriver fsEnumQuirk "c" "r" [50]).fs = fsEnumQuirk := by
  have h := C3_update_requires_existing bytesCodec dbDriver fsEnumQuirk "c" "r" [50]
    (by decide) (by decide) rfl rfl
  exact h

/-- Claim C4: the path-resolution helper `stat` probes `p` first; only
when `p` is absent does it probe `p + ".json"`; it returns the node of
whichever exists, and when neither exists it returns the not-found
error from the second probe, naming `p + ".json"`. -/
theorem C4_stat_resolution (fs : Fs) (p : Path) :
    (∀ fi, fsLookup fs p = some fi →
      stat fs p = .ok fi ∧ statProbes fs p = [p]) ∧
    (fsLookup fs p = none →
      statProbes fs p = [p, addJson p] ∧
      (∀ fi, fsLookup fs (addJson p) = some fi → stat fs p = .ok fi) ∧
      (fsLookup fs (addJson p) = none →
        stat fs p = .error (.notFound (addJson p)))) :=
  ⟨fun _ h => ⟨stat_of_bare h, statProbes_of_bare h⟩,
   fun h0 => ⟨statProbes_of_missing h0,
     fun _ h => stat_of_json h0 h,
     fun h1 => stat_err h0 h1⟩⟩

theorem C4_witness :
    stat fsBase ["db", "c", "r"] = .ok (.file [49]) ∧
    statProbes fsBase ["db", "c", "r"] = [["db", "c", "r"], ["db", "c", "r.json"]] ∧
    stat fsBase ["db", "c"] = .ok FNode.dir ∧
    stat fsBase ["db", "c", "m"] = .error (.notFound ["db", "c", "m.json"]) := by
  have h := C4_stat_resolution fsBase ["db", "c", "r"]
  have h2 := C4_stat_resolution fsBase ["db", "c"]
  have h3 := C4_stat_resolution fsBase ["db", "c", "m"]
  exact ⟨(h.2 rfl).2.1 (.file [49]) rfl, (h.2 rfl).1,
    (h2.1 FNode.dir rfl).1, (h3.2 rfl).2.2 rfl⟩

/-- Claim C5 (amended): `Delete(collection, resource)` with a non-empty
resource whose `<resource>.json` file exists removes exactly that file
— provided no directory sits at the bare path
`<rootDir>/<collection>/<resource>`, since an existing bare directory
is removed instead, leaving `<resource>.json` in place;
`Delete(collection, "")` on an existing collection directory removes
the whole collection subtree and nothing else; and `Delete` fails with
the not-found error when neither the resolved path nor its `.json`
variant exists. -/
theorem C5_delete_semantics (d : Driver) (fs0 : Fs) (c r : String) :
    (c ≠ "" → r ≠ "" →
      fsLookup fs0 (d.dir ++ [c, r]) ≠ some FNode.dir →
      ∀ bs, fsLookup fs0 (d.dir ++ [c, r ++ (".json")]) = some (.file bs) →
      (∀ q, d.dir ++ [c, r ++ (".json")] <+: q →
        q ≠ d.dir ++ [c, r ++ (".json")] → fsLookup fs0 q = none) →
      (Driver.Delete d fs0 c r).res = .ok () ∧
      fsLookup (Driver.Delete d fs0 c r).fs (d.dir ++ [c, r ++ (".json")]) = none ∧
      (∀ q, q ≠ d.dir ++ [c, r ++ (".json")] →
        fsLookup (Driver.Delete d fs0 c r).fs q = fsLookup fs0 q)) ∧
    (c ≠ "" → fsLookup fs0 (d.dir ++ [c]) = some FNode.dir →
      (Driver.Delete d fs0 c "").res = .ok () ∧
      (∀ q, d.dir ++ [c] <+: q →
        fsLookup (Driver.Delete d fs0 c "").fs q = none) ∧
      (∀ q, ¬ d.dir ++ [c] <+: q →
        fsLookup (Driver.Delete d fs0 c "").fs q = fsLookup fs0 q)) ∧
    (fsLookup fs0 (d.dir ++ joinNames [c, r]) = none →
      fsLookup fs0 (addJson (d.dir ++ joinNames [c, r])) = none →
      (Driver.Delete d fs0 c r).res = .error (.notFound (joinNames [c, r])) ∧
      (Driver.Delete d fs0 c r).fs = fs0) := by
  refine ⟨?_, ?_, ?_⟩
  · intro hc hr hnd bs hfile hwf
    have hstat : ∃ bb, stat fs0 (d.dir ++ [c, r]) = .ok (.file bb) := by
      cases hbare : fsLookup fs0 (d.dir ++ [c, r]) with
      | some fi =>
        cases fi with
        | dir => exact absurd hbare hnd
        | file bb => exact ⟨bb, stat_of_bare hbare⟩
      | none =>
        exact ⟨bs, stat_of_json hbare (by rw [addJson_two]; exact hfile)⟩
    obtain ⟨bb, hstat⟩ := hstat
    simp only [Driver.Delete, joinNames_pair c r hc hr, hstat, addExt_two]
    refine ⟨by simp, ?_, ?_⟩
    · rw [fsLookup_removeAllFs, if_pos (List.prefix_refl _)]
    · intro q hq
      rw [fsLookup_removeAllFs]
      by_cases hpre : d.dir ++ [c, r ++ (".json")] <+: q
      · rw [if_pos hpre]
        exact (hwf q hpre hq).symm
      · rw [if_neg hpre]
  · intro hc hcd
    have hstat : stat fs0 (d.dir ++ [c]) = .ok .dir := stat_of_bare hcd
    simp only [Driver.Delete, joinNames_first c hc, hstat]
    refine ⟨by simp, ?_, ?_⟩
    · intro q hq
      rw [fsLookup_removeAllFs, if_pos hq]
    · intro q hq
      rw [fsLookup_removeAllFs, if_neg hq]
  · intro h1 h2
    have hstat := stat_err h1 h2
    simp [Driver.Delete, hstat]

theorem C5_counterexample :
    fsLookup fsDirQuirk ["db", "c", "r.json"] = some (.file [49]) ∧
    (Driver.Delete dbDriver fsDirQuirk "c" "r").res = .ok () ∧
    fsLookup (Driver.Delete dbDriver fsDirQuirk "c" "r").fs ["db", "c", "r.json"] =
      some (.file [49]) ∧
    fsLookup (Driver.Delete dbDriver fsDirQuirk "c" "r").fs ["db", "c", "r"] = none :=
  ⟨rfl, rfl, rfl, rfl⟩

theorem C5_witness :
    ((Driver.Delete dbDriver fsBase "c" "r").res = .ok () ∧
      fsLookup (Driver.Delete dbDriver fsBase "c" "r").fs ["db", "c", "r.json"] = none ∧
      fsLookup (Driver.Delete dbDriver fsBase "c" "r").fs ["db", "c", "o.json"] =
        fsLookup fsBase ["db", "c", "o.json"]) ∧
    ((Driver.Delete dbDriver fsBase "c" "").res = .ok () ∧
      fsLookup (Driver.Delete dbDriver fsBase "c" "").fs ["db", "c", "r.json"] = none ∧
      fsLookup (Driver.Delete dbDriver fsBase "c" "").fs ["db"] =
        fsLookup fsBase ["db"]) ∧
    ((Driver.Delete dbDriver fsBase "m" "x").res =
      .error (.notFound ["m", "x"]) ∧
      (Driver.Delete dbDriver fsBase "m" "x").fs = fsBase) := by
  have h := C5_delete_semantics dbDriver fsBase "c" "r"
  have h3 := C5_delete_semantics dbDriver fsBase "m" "x"
  have hwf : ∀ q, (["db"] : Path) ++ ["c", "r" ++ (".json")] <+: q →
      q ≠ (["db"] : Path) ++ ["c", "r" ++ (".json")] → fsLookup fsBase q = none := by
    intro q hpre hne
    obtain ⟨t, ht⟩ := hpre
    cases t with
    | nil => exact absurd (by rw [← ht]; simp) hne
    | cons a t2 =>
      apply fsLookup_none_of_long (show ∀ e ∈ fsBase, e.1.length ≤ 3 by decide)
      rw [← ht]
      simp
  have h1 := h.1 (by decide) (by decide) (by decide) [49] rfl hwf
  have h2 := h.2.1 (by decide) rfl
  refine ⟨⟨h1.1, h1.2.1, h1.2.2 ["db", "c", "o.json"] (by decide)⟩,
    ⟨h2.1, h2.2.1 ["db", "c", "r.json"] (by decide),
      h2.2.2 ["db"] (by decide)⟩,
    h3.2.2 rfl rfl⟩

/-- Claim C6 (amended): for every non-empty collection, `ReadAll`
aborts with `IOError`, returning no partial results, when any
individual file read fails; but a failure of the directory enumeration
itself is silently discarded (`files, _ := ioutil.ReadDir(dir)`) and
yields a successful empty result, not `IOError`; on success `ReadAll`
returns the raw contents of all entries directly inside the collection
directory, non-recursively, in enumeration order (sorted by name). -/
theorem C6_readall_errors (d : Driver) (fs0 : Fs) (c : String) (hc : c ≠ "") :
    ((∃ fi, stat fs0 (d.dir ++ [c]) = .ok fi) →
      readDirFs fs0 (d.dir ++ [c]) = none →
      (Driver.ReadAll d fs0 c).res = .ok []) ∧
    (∀ files, readDirFs fs0 (d.dir ++ [c]) = some files →
      (∃ f ∈ files, readFileFs fs0 (pathJoin (d.dir ++ [c]) [f]) = none) →
      (Driver.ReadAll d fs0 c).res = .error .ioError) ∧
    (∀ recs, (Driver.ReadAll d fs0 c).res = .ok recs →
      recs = ((readDirFs fs0 (d.dir ++ [c])).getD []).map
        (fun f => (readFileFs fs0 (pathJoin (d.dir ++ [c]) [f])).getD []) ∧
      ∀ f ∈ (readDirFs fs0 (d.dir ++ [c])).getD [],
        (readFileFs fs0 (pathJoin (d.dir ++ [c]) [f])).isSome) := by
  refine ⟨?_, ?_, ?_⟩
  · rintro ⟨fi, hstat⟩ hnone
    simp [Driver.ReadAll, if_neg hc, pathJoin_single d.dir c hc, hstat, hnone,
      readAllLoop]
  · intro files hsome hex
    have hdir : fsLookup fs0 (d.dir ++ [c]) = some .dir := readDirFs_some_dir hsome
    have hstat := stat_of_bare hdir
    have hloop := readAllLoop_err hex
    simp [Driver.ReadAll, if_neg hc, pathJoin_single d.dir c hc, hstat, hsome, hloop]
  · intro recs hres
    simp only [Driver.ReadAll, if_neg hc, pathJoin_single d.dir c hc] at hres
    cases hstat : stat fs0 (d.dir ++ [c]) with
    | error e => simp [hstat] at hres
    | ok fi =>
      simp only [hstat] at hres
      cases hloop : readAllLoop fs0 (d.dir ++ [c])
          ((readDirFs fs0 (d.dir ++ [c])).getD []) with
      | error e => simp [hloop] at hres
      | ok recs2 =>
        simp only [hloop] at hres
        obtain rfl : recs2 = recs := by simpa using hres
        exact readAllLoop_ok hloop

theorem C6_counterexample :
    stat fsEnumQuirk ["db", "c"] = .ok (.file []) ∧
    readDirFs fsEnumQuirk ["db", "c"] = none ∧
    (Driver.ReadAll dbDriver fsEnumQuirk "c").res = .ok [] :=
  ⟨rfl, rfl, rfl⟩

theorem C6_witness :
    (Driver.ReadAll dbDriver fsSubdir "c").res = .error .ioError ∧
    (Driver.ReadAll dbDriver fsBase "c").res = .ok [[50], [49]] ∧
    [[50], [49]] = ((readDirFs fsBase ["db", "c"]).getD []).map
      (fun f => (readFileFs fsBase (pathJoin ["db", "c"] [f])).getD []) ∧
    (Driver.ReadAll dbDriver fsEnumQuirk "c").res = .ok [] := by
  refine ⟨?_, rfl, ?_, ?_⟩
  · exact (C6_readall_errors dbDriver fsSubdir "c" (by decide)).2.1 ["sub"] rfl
      ⟨"sub", by simp, rfl⟩
  · exact ((C6_readall_errors dbDriver fsBase "c" (by decide)).2.2 [[50], [49]] rfl).1
  · exact (C6_readall_errors dbDriver fsEnumQuirk "c" (by decide)).1
      ⟨.file [], rfl⟩ rfl

/-- Claim C7: for an existing resource (its `<resource>.json` file
present under an existing collection directory) and a serializable
value, `Update` writes exactly the bytes `Write` would produce for the
same value — the serialization plus a trailing newline — directly to
the final `<resource>.json` path: its filesystem trace is one stat
probe followed by one write to the final path, with no write to any
temporary path and no rename step. -/
theorem C7_update_writes_like_write {V : Type} (C : Codec V) (d : Driver)
    (fs0 : Fs) (c r : String) (v : V) (b bs : List Nat)
    (hc : c ≠ "") (hr : r ≠ "")
    (hm : C.marshal v = some b)
    (hx : fsLookup fs0 (d.dir ++ [c, r ++ (".json")]) = some (.file bs))
    (hparent : fsLookup fs0 (d.dir ++ [c]) = some FNode.dir) :
    (Driver.Update C d fs0 c r v).res = .ok () ∧
    (Driver.Update C d fs0 c r v).fsTrace =
      [.statOp (d.dir ++ [c, r ++ (".json")]),
       .writeOp (d.dir ++ [c, r ++ (".json")]) (b ++ [10])] ∧
    fsLookup (Driver.Update C d fs0 c r v).fs (d.dir ++ [c, r ++ (".json")]) =
      some (.file (b ++ [10])) ∧
    (∀ src dst, FsOp.renameOp src dst ∉ (Driver.Update C d fs0 c r v).fsTrace) ∧
    (∀ p2 b2, FsOp.writeOp p2 b2 ∈ (Driver.Update C d fs0 c r v).fsTrace →
      p2 = d.dir ++ [c, r ++ (".json")] ∧ b2 = b ++ [10]) ∧
    (∀ fsw, (Driver.Write C d fsw c r v).res = .ok () →
      FsOp.writeOp (d.dir ++ [c, r ++ (".json") ++ (".tmp")]) (b ++ [10]) ∈
        (Driver.Write C d fsw c r v).fsTrace) := by
  have hjson : (r ++ (".json")) ≠ "" := str_append_ne_empty r (".json") (by decide)
  have hstat := stat_of_bare hx
  have hprobes := statProbes_of_bare hx
  have hwf : writeFileFs fs0 (d.dir ++ [c, r ++ (".json")]) (b ++ [10]) =
      .ok (fsSet fs0 (d.dir ++ [c, r ++ (".json")]) (.file (b ++ [10]))) := by
    apply writeFileFs_ok (by simp)
    · rw [dropLast_two]
      exact Or.inr hparent
    · rw [hx]
      simp
  simp only [Driver.Update, if_neg hc, if_neg hr,
    pathJoin_pair d.dir c (r ++ (".json")) hc hjson, hstat, hprobes, hm, hwf]
  refine ⟨by simp, by simp, ?_, ?_, ?_, ?_⟩
  · rw [fsLookup_fsSet, if_pos rfl]
  · intro src dst hmem
    simp at hmem
  · intro p2 b2 hmem
    simp at hmem
    exact hmem
  · intro fsw hokw
    obtain ⟨b2, hm2, _, _, htr⟩ := write_ok_inv hc hr hokw
    have hb : b2 = b := by
      rw [hm] at hm2
      exact (Option.some_inj.mp hm2).symm
    rw [htr, hb]
    simp

theorem C7_witness :
    (Driver.Update bytesCodec dbDriver fsBase "c" "r" [51]).res = .ok () ∧
    (Driver.Update bytesCodec dbDriver fsBase "c" "r" [51]).fsTrace =
      [.statOp ["db", "c", "r.json"], .writeOp ["db", "c", "r.json"] [51, 10]] ∧
    fsLookup (Driver.Update bytesCodec dbDriver fsBase "c" "r" [51]).fs
      ["db", "c", "r.json"] = some (.file [51, 10]) ∧
    FsOp.renameOp ["db", "c", "r.json.tmp"] ["db", "c", "r.json"] ∉
      (Driver.Update bytesCodec dbDriver fsBase "c" "r" [51]).fsTrace ∧
    FsOp.writeOp ["db", "c", "r.json.tmp"] [51, 10] ∈
      (Driver.Write bytesCodec dbDriver fsBase "c" "r" [51]).fsTrace := by
  have h := C7_update_writes_like_write bytesCodec dbDriver fsBase "c" "r" [51]
    [51] [49] (by decide) (by decide) rfl rfl rfl
  exact ⟨h.1, h.2.1, h.2.2.1,
    h.2.2.2.1 ["db", "c", "r.json.tmp"] ["db", "c", "r.json"],
    h.2.2.2.2.2 fsBase rfl⟩

/-- Claim C8: `Write`, `Read` and `Update` each fail with
`InvalidArgument` whenever the collection or the resource is empty,
before the mutex registry is consulted and before any filesystem
operation: the result is the validation error with the filesystem, the
registry, the filesystem trace and the acquired-mutex list all showing
no activity. -/
theorem C8_empty_args_validation {V : Type} (C : Codec V) (d : Driver)
    (fs0 : Fs) (c r : String) (v : V) (h : c = "" ∨ r = "") :
    (∃ m, Driver.Write C d fs0 c r v =
      ⟨.error (.invalidArgument m), fs0, d.mutexes, [], []⟩) ∧
    (∃ m, Driver.Read C d fs0 c r =
      (⟨.error (.invalidArgument m), fs0, d.mutexes, [], []⟩ : OpOut V)) ∧
    (∃ m, Driver.Update C d fs0 c r v =
      ⟨.error (.invalidArgument m), fs0, d.mutexes, [], []⟩) := by
  rcases h with rfl | rfl
  · exact ⟨⟨("Missing collection"), rfl⟩, ⟨("Missing collection"), rfl⟩,
      ⟨("Missing collection"), rfl⟩⟩
  · by_cases hc : c = ""
    · subst hc
      exact ⟨⟨("Missing collection"), rfl⟩, ⟨("Missing collection"), rfl⟩,
        ⟨("Missing collection"), rfl⟩⟩
    · refine ⟨⟨("Missing resource"), ?_⟩, ⟨("Missing resource"), ?_⟩,
        ⟨("Missing resource"), ?_⟩⟩
      · simp [Driver.Write, hc]
      · simp [Driver.Read, hc]
      · simp [Driver.Update, hc]

theorem C8_witness :
    (∃ m, Driver.Write bytesCodec dbDriver fsBase "" "r" [1] =
      ⟨.error (.invalidArgument m), fsBase, dbDriver.mutexes, [], []⟩) ∧
    (∃ m, Driver.Read bytesCodec dbDriver fsBase "c" "" =
      (⟨.error (.invalidArgument m), fsBase, dbDriver.mutexes, [], []⟩ :
        OpOut (List Nat))) ∧
    (∃ m, Driver.Update bytesCodec dbDriver fsBase "c" "" [1] =
      ⟨.error (.invalidArgument m), fsBase, dbDriver.mutexes, [], []⟩) :=
  ⟨(C8_empty_args_validation bytesCodec dbDriver fsBase "" "r" [1] (Or.inl rfl)).1,
   (C8_empty_args_validation bytesCodec dbDriver fsBase "c" "" [1] (Or.inr rfl)).2.1,
   (C8_empty_args_validation bytesCodec dbDriver fsBase "c" "" [1] (Or.inr rfl)).2.2⟩

theorem mutexIdx_isSome_of_mem {m : List String} {c : String} (h : c ∈ m) :
    ∃ i, mutexIdx m c = some i := by
  induction m with
  | nil => simp at h
  | cons x xs ih =>
    by_cases hx : x = c
    · exact ⟨0, by simp [mutexIdx, hx]⟩
    · have h2 : c ∈ xs := by
        rcases List.mem_cons.mp h with h3 | h3
        · exact absurd h3.symm hx
        · exact h3
      obtain ⟨i, hi⟩ := ih h2
      exact ⟨i + 1, by simp [mutexIdx, hx, hi]⟩

/-- Claim C9: across any sequence of driver operations the mutex
registry only grows — the registry before the run is a prefix of the
registry after it, so no entry is ever removed or replaced — and for
any collection already registered, its position (the identity of its
mutex object) and the mutex `getOrCreateMutex` hands to a later
operation are unchanged by the run. -/
theorem C9_lock_registry_monotone {V : Type} (C : Codec V) (d : Driver)
    (fs : Fs) (ops : List (DbOp V)) :
    d.mutexes <+: (runOps C d fs ops).1.mutexes ∧
    (∀ c, c ∈ d.mutexes →
      mutexIdx (runOps C d fs ops).1.mutexes c = mutexIdx d.mutexes c ∧
      (getOrCreateMutex (runOps C d fs ops).1.mutexes c).1 =
        (getOrCreateMutex d.mutexes c).1) := by
  have hp := runOps_mutexes_mono C d fs ops
  refine ⟨hp, fun c hc => ?_⟩
  have hidx := mutexIdx_of_isPre hp hc
  refine ⟨hidx, ?_⟩
  obtain ⟨i, hi⟩ := mutexIdx_isSome_of_mem hc
  rw [getOrCreateMutex, getOrCreateMutex, hidx, hi]

theorem C9_witness :
    dbDriverC.mutexes <+:
      (runOps bytesCodec dbDriverC fsBase
        [.writeCall "c" "r" [1], .deleteCall "x" "", .readCall "c" "r"]).1.mutexes ∧
    mutexIdx (runOps bytesCodec dbDriverC fsBase
        [.writeCall "c" "r" [1], .deleteCall "x" "", .readCall "c" "r"]).1.mutexes
      "c" = mutexIdx dbDriverC.mutexes "c" ∧
    (getOrCreateMutex (runOps bytesCodec dbDriverC fsBase
        [.writeCall "c" "r" [1], .deleteCall "x" "", .readCall "c" "r"]).1.mutexes
      "c").1 = (getOrCreateMutex dbDriverC.mutexes "c").1 := by
  have h := C9_lock_registry_monotone bytesCodec dbDriverC fsBase
    [.writeCall "c" "r" [1], .deleteCall "x" "", .readCall "c" "r"]
  have h2 := h.2 "c" (by simp [dbDriverC])
  exact ⟨h.1, h2.1, h2.2⟩

/-- Claim C10: `Delete` performs no empty-argument validation — with an
empty collection and empty resource the joined relative path is empty,
the target resolves to the root directory itself, and since it exists
as a directory `Delete` succeeds and recursively removes the entire
database root (every entry at or below it), instead of failing with
`InvalidArgument`. -/
theorem C10_delete_empty_wipes_root (d : Driver) (fs0 : Fs)
    (hroot : fsLookup fs0 d.dir = some FNode.dir) :
    (Driver.Delete d fs0 "" "").res = .ok () ∧
    (Driver.Delete d fs0 "" "").fsTrace = [.statOp d.dir, .removeOp d.dir] ∧
    (∀ q, d.dir <+: q → fsLookup (Driver.Delete d fs0 "" "").fs q = none) := by
  have hjoin : joinNames ["", ""] = ([] : Path) := rfl
  have hdir : d.dir ++ joinNames ["", ""] = d.dir := by
    rw [hjoin, List.append_nil]
  have hstat : stat fs0 d.dir = .ok .dir := stat_of_bare hroot
  have hprobes : statProbes fs0 d.dir = [d.dir] := statProbes_of_bare hroot
  simp only [Driver.Delete, hdir, hstat, hprobes]
  refine ⟨by simp, by simp, ?_⟩
  intro q hq
  rw [fsLookup_removeAllFs, if_pos hq]

theorem C10_witness :
    (Driver.Delete dbDriver fsBase "" "").res = .ok () ∧
    (Driver.Delete dbDriver fsBase "" "").fsTrace =
      [.statOp ["db"], .removeOp ["db"]] ∧
    fsLookup (Driver.Delete dbDriver fsBase "" "").fs ["db"] = none ∧
    fsLookup (Driver.Delete dbDriver fsBase "" "").fs ["db", "c", "r.json"] = none := by
  have h := C10_delete_empty_wipes_root dbDriver fsBase rfl
  exact ⟨h.1, h.2.1, h.2.2 ["db"] (by decide),
    h.2.2 ["db", "c", "r.json"] (by decide)⟩

end GoJsonDb
